import Mathlib

/-!
Verification development for the dfwriter package, a line-buffered,
size-rotating, multi-process file log writer.

The Go sources are shallowly embedded in Lean:

* Go byte strings and file contents become `List Nat` (one `Nat` per byte);
  Go's byte-wise lexicographic string comparison (used by `sort.Strings`)
  becomes `bytesLt` / `bytesLe` below.
* The writer struct `DistributedFileWriter` together with the part of the
  filesystem it can observe (the live file's contents and the backup files
  next to it) becomes the structure `Writer`.  The open file handle is
  represented by the `live` contents and the `closed` flag; `stat` on the
  live file is modelled as always succeeding and reporting `live.length`.
* Fallible I/O steps (create / open / copy / sync / truncate / the write
  syscall / close / per-file remove) are driven by a static fault oracle
  `Faults` carried in the state, so that error propagation paths of the
  code can be exercised; the happy path is the all-`false` oracle.
* `fcntl` advisory locks have no observable effect in this sequential,
  single-writer model; the lock-dependent control flow of `writeLine`
  (the deferred sync before unlock and its error combination) is kept.
* gzip compression of backup contents is not modelled byte-for-byte; a
  backup stores the bytes that were copied into it.  (The claims treated
  here concern backup names and control flow, not the gzip encoding.)
-/

namespace DFW

/-- Byte-wise lexicographic strict order on byte strings, as Go compares
strings: shorter prefix first, otherwise first differing byte decides. -/
def bytesLt : List Nat → List Nat → Bool
  | [], [] => false
  | [], _ :: _ => true
  | _ :: _, [] => false
  | a :: as, b :: bs => if a < b then true else if b < a then false else bytesLt as bs

/-- Byte-wise lexicographic reflexive order on byte strings. -/
def bytesLe (x y : List Nat) : Bool := !(bytesLt y x)

/-- `bytesLe` as a relation, for use with `List.insertionSort`. -/
def bytesLeP (x y : List Nat) : Prop := bytesLe x y = true

instance : DecidableRel bytesLeP := fun x y => inferInstanceAs (Decidable (bytesLe x y = true))

/-- Convert a Lean string literal to its byte-string model (ASCII inputs). -/
def bytes (s : String) : List Nat := s.data.map Char.toNat

/-- Decimal representation of a natural number as bytes, modelling Go's
fmt.Sprintf with the %d verb. -/
def natBytes (n : Nat) : List Nat := (Nat.toDigits 10 n).map Char.toNat

/-- Errors surfaced by the writer.  Each constructor stands for the error
value produced at the corresponding failure site in the Go code;
`combined e1 e2` models fmt.Errorf joining two errors with the %w verb
in the deferred sync-then-unlock cleanup of writeLine. -/
inductive Err where
  | sizeExceeded
  | createFailed
  | openFailed
  | copyFailed
  | syncFailed
  | truncFailed
  | writeFailed
  | closeFailed
  | combined (e1 e2 : Err)
  deriving Repr, DecidableEq

/-- Static fault oracle: which I/O steps fail when attempted.
`removeFails` lists backup names whose os.Remove call fails (the code
ignores that error, so the file then simply stays on disk). -/
structure Faults where
  createErr : Bool := false
  openErr : Bool := false
  copyErr : Bool := false
  syncErr : Bool := false
  truncErr : Bool := false
  writeErr : Bool := false
  closeErr : Bool := false
  removeFails : List (List Nat) := []
  deriving Repr, DecidableEq

/-- The writer state: the DistributedFileWriter struct of dfwriter.go
together with the slice of the filesystem it touches.  `name` is the live
file's path, `live` its current contents, `backups` the files named
`name + "." + ...` next to it (name/content pairs), `timestamp` the
current wall-clock time already formatted as 20060102-150405 (rotation
reads the clock only through this format). -/
structure Writer where
  fsLock : Bool := false
  compress : Bool := false
  maxBackups : Nat := 0
  maxSize : Int := 0
  pfx : List Nat := []
  buf : List Nat := []
  name : List Nat := []
  live : List Nat := []
  backups : List (List Nat × List Nat) := []
  timestamp : List Nat := []
  closed : Bool := false
  faults : Faults := {}
  deriving Repr, DecidableEq

/-- Modelled from the spec: the PIPE_BUF constant used by writeLine is
declared outside the files available here; the spec fixes the atomic
line size threshold to its default, 4096 bytes. -/
def PIPE_BUF : Nat := 4096

/-- shouldRotate of dfwriter.go: stat the live file and report whether
its size plus the incoming line would reach maxSize (only when a
maximum is configured).  stat is modelled as always succeeding. -/
def shouldRotate (w : Writer) (n : Nat) : Bool :=
  decide ((w.live.length : Int) + (n : Int) ≥ w.maxSize) && decide (w.maxSize > 0)

/-- The invariant part of every backup name for this writer:
name + "." + timestamp + ".". -/
def backupBase (w : Writer) : List Nat :=
  w.name ++ bytes "." ++ w.timestamp ++ bytes "."

/-- The sequence-probing loop of rotate: starting from `i`, return the
first sequence number whose candidate name (base plus decimal sequence,
with no compression suffix, exactly as the loop body rebuilds it) is not
taken.  Fuel makes the recursion structural; rotate passes enough fuel
for the search to always terminate at a free name. -/
def firstFreeSeq (names : List (List Nat)) (base : List Nat) : Nat → Nat → Nat
  | 0, i => i
  | fuel + 1, i =>
    if (base ++ natBytes i) ∈ names then firstFreeSeq names base fuel (i + 1) else i

/-- The backup-name computation at the top of rotate: the first candidate
is base ++ "0", with ".gz" appended when compression is on; if it exists,
the loop probes base ++ "1", base ++ "2", ... — note the loop body does
not re-append ".gz", faithfully to the source. -/
def backupName (w : Writer) : List Nat :=
  let names := w.backups.map Prod.fst
  let first := backupBase w ++ natBytes 0 ++ (if w.compress then bytes ".gz" else [])
  if first ∈ names then
    backupBase w ++ natBytes (firstFreeSeq names (backupBase w) (names.length + 1) 1)
  else first

/-- The backup enumeration of cleanupOldBackups: glob name.* then keep
entries that start with name + "." and are longer than name plus the
dot. -/
def backupsOf (w : Writer) : List (List Nat) :=
  (w.backups.map Prod.fst).filter fun f =>
    (w.name ++ bytes ".").isPrefixOf f && decide (f.length > w.name.length + 1)

/-- The names cleanupOldBackups selects for deletion: nothing when the
count is within maxBackups, otherwise the first (oldest, by the sorted
byte-wise lexicographic order sort.Strings produces) entries beyond the
maxBackups most recent. -/
def deletedBackups (w : Writer) : List (List Nat) :=
  let backs := backupsOf w
  if backs.length ≤ w.maxBackups then []
  else (List.insertionSort bytesLeP backs).take (backs.length - w.maxBackups)

/-- cleanupOldBackups of dfwriter.go: enumerate backups, keep the
maxBackups lexicographically largest, os.Remove the rest best-effort
(a failed removal leaves the file in place and is discarded), and
return nil. -/
def cleanupOldBackups (w : Writer) : Writer × Option Err :=
  let toDelete := deletedBackups w
  ({ w with
      backups :=
        w.backups.filter fun p =>
          decide (p.1 ∉ toDelete ∨ p.1 ∈ w.faults.removeFails) },
    none)

/-- rotate of dfwriter.go: pick an unused backup name, create the backup
file, open the live file, copy its contents across, sync, truncate the
live file, then clean up old backups.  Each fallible step consults the
fault oracle and aborts with its error; a failure after os.Create leaves
the created (still empty) backup file behind, as on disk. -/
def rotate (w : Writer) : Writer × Option Err :=
  let bp := backupName w
  if w.faults.createErr then (w, some .createFailed)
  else
    let w1 := { w with backups := (bp, []) :: w.backups }
    if w.faults.openErr then (w1, some .openFailed)
    else if w.faults.copyErr then (w1, some .copyFailed)
    else
      let w2 := { w1 with
        backups := w1.backups.map fun p => if p.1 = bp then (bp, w.live) else p }
      if w.faults.syncErr then (w2, some .syncFailed)
      else if w.faults.truncErr then (w2, some .truncFailed)
      else cleanupOldBackups { w2 with live := [] }

/-- The error combination of writeLine's deferred cleanup: sync or unlock
errors are joined onto an already-pending error rather than replacing
it. -/
def combineErr : Option Err → Err → Option Err
  | none, e2 => some e2
  | some e1, e2 => some (.combined e1 e2)

/-- The deferred cleanup writeLine registers when locking is enabled:
on every exit, when the line was large or rotation was needed, sync the
file before unlocking and join a sync failure onto whatever the call was
about to return (unlocking itself is not observable here and modelled as
succeeding). -/
def deferSync (w : Writer) (n : Nat) (r : Writer × Option Err) : Writer × Option Err :=
  if (w.fsLock && (decide (n > PIPE_BUF) || shouldRotate w n)) && w.faults.syncErr then
    (r.1, combineErr r.2 .syncFailed)
  else r

/-- writeLine of dfwriter.go.  Empty line: no-op.  Oversized line
(length plus the configured line prefix beyond a positive maxSize):
error before anything else happens.  Otherwise decide rotation, rotate
if needed, append the prefixed line with one write call and truncate the
writer's buffer.  The deferred sync-then-unlock cleanup wraps everything
after the lock is taken (the re-check of shouldRotate after taking the
exclusive lock returns the same answer in this sequential model). -/
def writeLine (w : Writer) (line : List Nat) : Writer × Option Err :=
  if line = [] then (w, none)
  else
    let n := line.length + w.pfx.length
    if decide ((n : Int) > w.maxSize) && decide (w.maxSize > 0) then
      (w, some .sizeExceeded)
    else
      deferSync w n
        (match (if shouldRotate w n then rotate w else (w, none)) with
        | (w1, some e) => (w1, some e)
        | (w1, none) =>
          if w1.faults.writeErr then (w1, some .writeFailed)
          else ({ w1 with live := w1.live ++ w1.pfx ++ line, buf := [] }, none))

/-- The loop body of Write: push each byte onto the buffer and hand the
buffer to writeLine at every newline, aborting on the first error. -/
def writeLoop (w : Writer) : List Nat → Writer × Option Err
  | [] => (w, none)
  | c :: rest =>
    let w1 := { w with buf := w.buf ++ [c] }
    if c = 10 then
      match writeLine w1 w1.buf with
      | (w2, some e) => (w2, some e)
      | (w2, none) => writeLoop w2 rest
    else writeLoop w1 rest

/-- Write of dfwriter.go: run the byte loop; report the whole chunk
length on success and zero bytes with the error otherwise. -/
def write (w : Writer) (b : List Nat) : Writer × Nat × Option Err :=
  match writeLoop w b with
  | (w', none) => (w', b.length, none)
  | (w', some e) => (w', 0, some e)

/-- A sequence of Write calls, stopping at the first failing one (as a
caller that checks errors would). -/
def writeAll (w : Writer) : List (List Nat) → Writer × Option Err
  | [] => (w, none)
  | c :: cs =>
    match write w c with
    | (w', _, none) => writeAll w' cs
    | (w', _, some e) => (w', some e)

/-- Sync of dfwriter.go: flush a non-empty buffer through writeLine,
otherwise sync the file handle. -/
def syncW (w : Writer) : Writer × Option Err :=
  if w.buf ≠ [] then writeLine w w.buf
  else (w, if w.faults.syncErr then some .syncFailed else none)

/-- Close of dfwriter.go: close the underlying file handle, nothing
else. -/
def closeW (w : Writer) : Writer × Option Err :=
  ({ w with closed := true }, if w.faults.closeErr then some .closeFailed else none)

/-- Modelled from the spec: the age-based retention condition of the
Retention Manager.  The timestamp embedded in a backup's filename is the
fixed-width 15-byte field right after the live name and its dot; with
that format, "older than now minus the max age" is exactly a byte-wise
lexicographic comparison of the embedded timestamp against the
similarly formatted cutoff instant (now minus max age). -/
def specBackupExpired (name f cutoff : List Nat) : Bool :=
  if (name ++ bytes ".").isPrefixOf f && decide (f.length ≥ name.length + 1 + 15) then
    bytesLt ((f.drop (name.length + 1)).take 15) cutoff
  else false

/-! Concrete writer states used by the per-claim counterexamples and
witnesses below. -/

/-- A writer holding an unterminated partial line in its buffer. -/
def c1Writer : Writer :=
  { name := bytes "app.log", live := bytes "d\n", buf := bytes "abc" }

/-- One old backup, well within the count limit. -/
def c2Writer : Writer :=
  { name := bytes "a", maxBackups := 5,
    backups := [(bytes "a.20200101-000000.0", bytes "x")] }

/-- Three backups over a limit of one, with removal of the oldest
failing. -/
def c2WitWriter : Writer :=
  { name := bytes "a", maxBackups := 1,
    backups := [(bytes "a.20250101-120000.0", bytes "x"),
                (bytes "a.20250102-120000.0", bytes "y"),
                (bytes "a.20250103-120000.0", bytes "z")],
    faults := { removeFails := [bytes "a.20250101-120000.0"] } }

/-- Two backups with the zero (default) maxBackups. -/
def c3Writer : Writer :=
  { name := bytes "a", maxBackups := 0,
    backups := [(bytes "a.20250101-120000.0", bytes "x"),
                (bytes "a.20250102-120000.0", bytes "y")] }

/-- Two backups over a limit of one. -/
def c3WitWriter : Writer :=
  { name := bytes "a", maxBackups := 1,
    backups := [(bytes "a.20250101-120000.0", bytes "x"),
                (bytes "a.20250102-120000.0", bytes "y")] }

/-- An empty writer with a small maximum line size. -/
def c4Writer : Writer := { name := bytes "a", maxSize := 5 }

/-- A newline-terminated line that is oversized for c4Writer. -/
def c4Chunk : List Nat := bytes "xxxxxxx\n"

/-- c4Writer after Write has accumulated the rejected line. -/
def c4WitWriter : Writer := { name := bytes "a", maxSize := 5, buf := bytes "xxxxxxx\n" }

/-- Compression on, and the seq-0 backup name for this second already
taken. -/
def c5Writer : Writer :=
  { name := bytes "a", compress := true, timestamp := bytes "20250101-120000",
    backups := [(bytes "a.20250101-120000.0.gz", [])] }

/-- A writer whose next rotation will fail while copying into the
backup. -/
def c6Writer : Writer :=
  { name := bytes "a", timestamp := bytes "20250101-120000", live := bytes "zz",
    maxBackups := 1, backups := [(bytes "a.20250101-110000.0", bytes "old")],
    faults := { copyErr := true } }

/-- An empty writer with maxSize 10. -/
def c7Writer : Writer := { name := bytes "a", maxSize := 10 }

/-- Two small complete lines followed by an oversized one. -/
def c7Chunk : List Nat := bytes "a\nb\nxxxxxxxxxx\n"

/-- An unlimited-size writer. -/
def c8Writer : Writer := { name := bytes "a" }

/-- A three-way split of the byte stream "abc\ndef\n". -/
def c8Chunks : List (List Nat) := [bytes "ab", bytes "c\nd", bytes "ef\n"]

/-- An unlimited-size writer. -/
def c9Writer : Writer := { name := bytes "b" }

/-! Order-theoretic facts about the byte-wise lexicographic comparison,
needed to reason about what sort.Strings followed by a take keeps. -/

theorem bytesLt_irrefl (x : List Nat) : bytesLt x x = false := by
  induction x with
  | nil => rfl
  | cons a as ih => simp [bytesLt, ih]

theorem bytesLt_asymm : ∀ {x y : List Nat}, bytesLt x y = true → bytesLt y x = false
  | [], [], h => by simp [bytesLt] at h
  | [], _ :: _, _ => rfl
  | _ :: _, [], h => by simp [bytesLt] at h
  | a :: as, b :: bs, h => by
    simp only [bytesLt] at h ⊢
    by_cases hab : a < b
    · simp [Nat.lt_asymm hab, hab]
    · by_cases hba : b < a
      · simp [hab, hba] at h
      · simpa [hab, hba] using bytesLt_asymm (by simpa [hab, hba] using h)

theorem bytesLt_conn : ∀ {x y : List Nat},
    bytesLt x y = false → bytesLt y x = false → x = y
  | [], [], _, _ => rfl
  | [], _ :: _, h1, _ => by simp [bytesLt] at h1
  | _ :: _, [], _, h2 => by simp [bytesLt] at h2
  | a :: as, b :: bs, h1, h2 => by
    simp only [bytesLt] at h1 h2
    by_cases hab : a < b
    · simp [hab] at h1
    · by_cases hba : b < a
      · simp [hba, hab] at h2
      · have hab' : a = b := Nat.le_antisymm (Nat.le_of_not_lt hba) (Nat.le_of_not_lt hab)
        have := bytesLt_conn (by simpa [hab, hba] using h1) (by simpa [hab, hba] using h2)
        rw [hab', this]

theorem bytesLt_trans : ∀ {x y z : List Nat},
    bytesLt x y = true → bytesLt y z = true → bytesLt x z = true
  | [], _, _ :: _, _, _ => rfl
  | [], y, [], _, h2 => by cases y <;> simp [bytesLt] at h2
  | _ :: _, y, [], h1, h2 => by cases y <;> simp [bytesLt] at h1 h2
  | a :: as, y, c :: cs, h1, h2 => by
    match y with
    | [] => simp [bytesLt] at h1
    | b :: bs =>
      simp only [bytesLt] at h1 h2 ⊢
      by_cases hab : a < b
      · by_cases hbc : b < c
        · simp [Nat.lt_trans hab hbc]
        · by_cases hcb : c < b
          · simp [hbc, hcb] at h2
          · have : b = c := Nat.le_antisymm (Nat.le_of_not_lt hcb) (Nat.le_of_not_lt hbc)
            simp [this ▸ hab]
      · by_cases hba : b < a
        · simp [hab, hba] at h1
        · have hab' : a = b := Nat.le_antisymm (Nat.le_of_not_lt hba) (Nat.le_of_not_lt hab)
          subst hab'
          by_cases hac : a < c
          · simp [hac]
          · by_cases hca : c < a
            · simp [hac, hca] at h2
            · simp only [hac, hca, if_false]
              exact bytesLt_trans (by simpa [hab, hba] using h1)
                (by simpa [hac, hca] using h2)

instance : IsTotal (List Nat) bytesLeP :=
  ⟨fun x y => by
    unfold bytesLeP bytesLe
    cases h : bytesLt y x
    · left; simp [h]
    · right; simp [bytesLt_asymm h]⟩

instance : IsTrans (List Nat) bytesLeP :=
  ⟨fun x y z hxy hyz => by
    unfold bytesLeP bytesLe at hxy hyz ⊢
    rw [Bool.not_eq_true'] at hxy hyz ⊢
    cases hzx : bytesLt z x
    · rfl
    · exfalso
      cases hxy' : bytesLt x y
      · rw [bytesLt_conn hxy' hxy] at hzx
        rw [hzx] at hyz
        cases hyz
      · rw [bytesLt_trans hzx hxy'] at hyz
        cases hyz⟩

theorem countP_lt_length_of_mem {α : Type} {l : List α} {p : α → Bool} {x : α}
    (hx : x ∈ l) (hpx : p x = false) : l.countP p < l.length := by
  refine Nat.lt_of_le_of_ne (List.countP_le_length p) fun h => ?_
  rw [List.countP_eq_length] at h
  exact absurd (h x hx) (by simp [hpx])

theorem mem_drop_iff_countP (K : Nat) (x : List Nat) :
    ∀ {l : List (List Nat)}, l.Pairwise (fun a b => bytesLt a b = true) →
      (x ∈ l.drop (l.length - K) ↔ x ∈ l ∧ l.countP (fun y => bytesLt x y) < K) := by
  intro l hs
  induction l with
  | nil => simp
  | cons a t ih =>
    rcases List.pairwise_cons.mp hs with ⟨ha, ht⟩
    by_cases hK : (a :: t).length ≤ K
    · rw [Nat.sub_eq_zero_of_le hK, List.drop_zero]
      refine ⟨fun hx => ⟨hx, ?_⟩, fun h => h.1⟩
      exact Nat.lt_of_lt_of_le (countP_lt_length_of_mem hx (bytesLt_irrefl x)) hK
    · have hKt : K ≤ t.length := by simp at hK; omega
      have hlen : (a :: t).length - K = (t.length - K) + 1 := by simp; omega
      rw [hlen, List.drop_succ_cons, ih ht]
      constructor
      · rintro ⟨hxt, hc⟩
        refine ⟨List.mem_cons_of_mem _ hxt, ?_⟩
        rw [List.countP_cons]
        simp [bytesLt_asymm (ha x hxt), hc]
      · rintro ⟨hx, hc⟩
        rcases List.mem_cons.mp hx with rfl | hxt
        · exfalso
          rw [List.countP_cons] at hc
          simp only [bytesLt_irrefl] at hc
          rw [List.countP_eq_length.mpr ha] at hc
          omega
        · refine ⟨hxt, ?_⟩
          rw [List.countP_cons] at hc
          simpa [bytesLt_asymm (ha x hxt)] using hc

theorem mem_take_iff_countP {l : List (List Nat)} (K : Nat) (x : List Nat)
    (hs : l.Pairwise (fun a b => bytesLt a b = true)) :
    x ∈ l.take (l.length - K) ↔ x ∈ l ∧ K ≤ l.countP (fun y => bytesLt x y) := by
  have hnd : l.Nodup := hs.imp fun h => by
    intro heq
    subst heq
    simp [bytesLt_irrefl] at h
  have hsplit := List.take_append_drop (l.length - K) l
  have hnd2 : (l.take (l.length - K) ++ l.drop (l.length - K)).Nodup := by
    rw [hsplit]; exact hnd
  have hdisj : ∀ y, y ∈ l.take (l.length - K) → y ∈ l.drop (l.length - K) → False :=
    fun y h1 h2 => (List.disjoint_of_nodup_append hnd2) h1 h2
  constructor
  · intro hx
    have hxl : x ∈ l := hsplit ▸ List.mem_append_left _ hx
    refine ⟨hxl, Nat.le_of_not_lt fun hlt => ?_⟩
    exact hdisj x hx ((mem_drop_iff_countP K x hs).mpr ⟨hxl, hlt⟩)
  · rintro ⟨hxl, hK⟩
    rcases List.mem_append.mp (show x ∈ l.take (l.length - K) ++ l.drop (l.length - K) by
      rw [hsplit]; exact hxl) with h | h
    · exact h
    · exact absurd ((mem_drop_iff_countP K x hs).mp h).2 (Nat.not_lt.mpr hK)

/-- What cleanupOldBackups selects for deletion, characterised without
reference to sorting: a backup goes when at least maxBackups other
backups are strictly newer (byte-wise lexicographically greater) — in
other words exactly the entries outside the maxBackups most recent
survive the count policy.  Holds for every maxBackups value, including
zero. -/
theorem deletedBackups_char (w : Writer) (h : (backupsOf w).Nodup) (f : List Nat) :
    f ∈ deletedBackups w ↔
      f ∈ backupsOf w ∧
        w.maxBackups ≤ (backupsOf w).countP (fun g => bytesLt f g) := by
  unfold deletedBackups
  by_cases hle : (backupsOf w).length ≤ w.maxBackups
  · rw [if_pos hle]
    simp only [List.not_mem_nil, false_iff, not_and]
    intro hfB
    have := countP_lt_length_of_mem (p := fun g => bytesLt f g) hfB (bytesLt_irrefl f)
    omega
  · rw [if_neg hle]
    have hperm : List.Perm (List.insertionSort bytesLeP (backupsOf w)) (backupsOf w) :=
      List.perm_insertionSort _ _
    have hsorted : (List.insertionSort bytesLeP (backupsOf w)).Pairwise bytesLeP :=
      List.sorted_insertionSort bytesLeP (backupsOf w)
    have hnd : (List.insertionSort bytesLeP (backupsOf w)).Nodup :=
      hperm.nodup_iff.mpr h
    have hstrict : (List.insertionSort bytesLeP (backupsOf w)).Pairwise
        (fun a b => bytesLt a b = true) := by
      refine (hsorted.and hnd).imp ?_
      rintro a b ⟨hab, hne⟩
      cases hba : bytesLt a b
      · exact absurd (bytesLt_conn hba (by simpa [bytesLeP, bytesLe] using hab)) hne
      · rfl
    have hlen : (backupsOf w).length = (List.insertionSort bytesLeP (backupsOf w)).length :=
      hperm.length_eq.symm
    rw [hlen, mem_take_iff_countP _ _ hstrict, hperm.mem_iff, hperm.countP_eq]

/-! Small structural lemmas about the embedded operations. -/

theorem combineErr_ne_none (e : Option Err) (e2 : Err) : combineErr e e2 ≠ none := by
  cases e <;> simp [combineErr]

theorem deferSync_none {w : Writer} {n : Nat} {r : Writer × Option Err}
    (h : (deferSync w n r).2 = none) : deferSync w n r = r := by
  unfold deferSync at h ⊢
  by_cases hc : ((w.fsLock && (decide (n > PIPE_BUF) || shouldRotate w n)) &&
      w.faults.syncErr) = true
  · rw [if_pos hc] at h
    exact absurd h (combineErr_ne_none _ _)
  · rw [if_neg hc]

theorem map_fst_filterP (p : List Nat → Bool) (l : List (List Nat × List Nat)) :
    (l.filter fun q => p q.1).map Prod.fst = (l.map Prod.fst).filter p := by
  induction l with
  | nil => rfl
  | cons a t ih => by_cases h : p a.1 <;> simp [List.filter_cons, h, ih]

theorem map_fst_overwrite (l : List (List Nat × List Nat)) (bp v : List Nat) :
    (l.map fun p => if p.1 = bp then (bp, v) else p).map Prod.fst = l.map Prod.fst := by
  rw [List.map_map]
  refine List.map_congr_left fun p _ => ?_
  by_cases h : p.1 = bp <;> simp [h]

/-! The claims. -/

/-- Claim C1: the claim (and the repository README) says Close first
flushes the buffered partial line and then closes the handle.  The
code's Close only closes the handle: at a state holding three buffered
bytes, Close leaves the file contents and the buffer exactly as they
were and merely marks the handle closed — the buffered bytes are never
written (code_bug exhibit). -/
theorem c1_close_drops_buffered_bytes :
    c1Writer.buf = bytes "abc" ∧
    closeW c1Writer = ({ c1Writer with closed := true }, none) ∧
    (closeW c1Writer).1.live = c1Writer.live ∧
    (closeW c1Writer).1.buf = bytes "abc" := by decide

/-- Claim C2 counterexample: with a maximum age configured (the cutoff
instant now-minus-max-age, formatted, is 20260101-000000), the single
backup of c2Writer is age-expired under the spec's age policy while the
count limit is not exceeded, yet cleanup deletes nothing and returns no
error — so the claimed "deleted iff count-exceeded or age-expired" is
false on the code, whose cleanup never consults any age. -/
theorem c2_age_policy_counterexample :
    specBackupExpired (bytes "a") (bytes "a.20200101-000000.0")
      (bytes "20260101-000000") = true ∧
    (backupsOf c2Writer).length ≤ c2Writer.maxBackups ∧
    deletedBackups c2Writer = [] ∧
    cleanupOldBackups c2Writer = (c2Writer, none) := by decide

/-- Claim C2 (amended): a backup considered during cleanup is removed
iff the count policy selects it — at least maxBackups backups are
strictly newer than it — and its removal succeeds; the timestamp
embedded in the name is never consulted for age, and cleanup always
returns nil: a removal failure is silently ignored (that entry stays on
disk) while the remaining candidates are still evaluated and removed,
so failures are not surfaced to the caller. -/
theorem c2_cleanup_deletion_policy (w : Writer)
    (h : (w.backups.map Prod.fst).Nodup) (f : List Nat) :
    (cleanupOldBackups w).2 = none ∧
    ((f ∈ w.backups.map Prod.fst ∧
        f ∉ (cleanupOldBackups w).1.backups.map Prod.fst) ↔
      (f ∈ backupsOf w ∧
        w.maxBackups ≤ (backupsOf w).countP (fun g => bytesLt f g) ∧
        f ∉ w.faults.removeFails)) := by
  have hB : (backupsOf w).Nodup := h.filter _
  have hchar := deletedBackups_char w hB f
  have hBN : f ∈ backupsOf w → f ∈ w.backups.map Prod.fst :=
    fun hf => (List.mem_filter.mp hf).1
  refine ⟨rfl, ?_⟩
  show f ∈ w.backups.map Prod.fst ∧
      f ∉ (List.map Prod.fst (w.backups.filter fun p =>
        decide (p.1 ∉ deletedBackups w ∨ p.1 ∈ w.faults.removeFails))) ↔ _
  rw [map_fst_filterP
        (fun g => decide (g ∉ deletedBackups w ∨ g ∈ w.faults.removeFails)) w.backups,
      List.mem_filter]
  constructor
  · rintro ⟨hN, hnot⟩
    have hp : ¬ (decide (f ∉ deletedBackups w ∨ f ∈ w.faults.removeFails) = true) :=
      fun hp => hnot ⟨hN, hp⟩
    rw [decide_eq_true_eq] at hp
    push_neg at hp
    obtain ⟨hD, hrf⟩ := hp
    obtain ⟨hfB, hcount⟩ := hchar.mp hD
    exact ⟨hfB, hcount, hrf⟩
  · rintro ⟨hfB, hcount, hrf⟩
    have hD : f ∈ deletedBackups w := hchar.mpr ⟨hfB, hcount⟩
    refine ⟨hBN hfB, ?_⟩
    rintro ⟨-, hp⟩
    rw [decide_eq_true_eq] at hp
    rcases hp with h1 | h2
    · exact h1 hD
    · exact hrf h2

/-- Claim C2 witness: with three backups over a limit of one and the
oldest one's removal failing, the middle backup is removed (two
backups are newer than it), cleanup reports no error. -/
theorem c2_cleanup_deletion_policy_witness :
    (cleanupOldBackups c2WitWriter).2 = none ∧
    ((bytes "a.20250102-120000.0" ∈ c2WitWriter.backups.map Prod.fst ∧
        bytes "a.20250102-120000.0" ∉ (cleanupOldBackups c2WitWriter).1.backups.map Prod.fst) ↔
      (bytes "a.20250102-120000.0" ∈ backupsOf c2WitWriter ∧
        c2WitWriter.maxBackups ≤ (backupsOf c2WitWriter).countP
          (fun g => bytesLt (bytes "a.20250102-120000.0") g) ∧
        bytes "a.20250102-120000.0" ∉ c2WitWriter.faults.removeFails)) :=
  c2_cleanup_deletion_policy c2WitWriter (by decide) (bytes "a.20250102-120000.0")

/-- Claim C3 counterexample: with maxBackups = 0 and two backups on
disk, cleanup selects and deletes both — a configured count of zero is
a retention limit of zero, not unlimited retention. -/
theorem c3_zero_maxBackups_counterexample :
    c3Writer.maxBackups = 0 ∧
    c3Writer.backups.length = 2 ∧
    deletedBackups c3Writer =
      [bytes "a.20250101-120000.0", bytes "a.20250102-120000.0"] ∧
    (cleanupOldBackups c3Writer).1.backups = [] := by decide

/-- Claim C3 (amended): cleanup treats every maxBackups value K
uniformly as "keep only the K most recent": a backup is selected for
deletion iff at least K backups are strictly newer than it.  For K > 0
this is the claim's "delete exactly the oldest entries beyond K so the
K most recent remain"; for K = 0 it deletes every backup rather than
none (0 is not unlimited). -/
theorem c3_retention_keeps_k_most_recent (w : Writer)
    (h : (backupsOf w).Nodup) :
    (w.maxBackups = 0 → ∀ f, f ∈ deletedBackups w ↔ f ∈ backupsOf w) ∧
    (∀ f, f ∈ deletedBackups w ↔
      f ∈ backupsOf w ∧
        w.maxBackups ≤ (backupsOf w).countP fun g => bytesLt f g) := by
  refine ⟨fun h0 f => ?_, fun f => deletedBackups_char w h f⟩
  rw [deletedBackups_char w h f, h0]
  simp

/-- Claim C3 witness: with two backups over a limit of one, the older
backup is selected for deletion exactly because one backup is newer. -/
theorem c3_retention_keeps_k_most_recent_witness :
    bytes "a.20250101-120000.0" ∈ deletedBackups c3WitWriter ↔
      bytes "a.20250101-120000.0" ∈ backupsOf c3WitWriter ∧
        c3WitWriter.maxBackups ≤ (backupsOf c3WitWriter).countP
          fun g => bytesLt (bytes "a.20250101-120000.0") g :=
  (c3_retention_keeps_k_most_recent c3WitWriter (by decide)).2
    (bytes "a.20250101-120000.0")

/-- Claim C5: backup naming.  With no collision the code produces
path.timestamp.0.gz under compression, but when that seq-0 name is
already taken the probing loop rebuilds the candidate without
re-appending ".gz": the second rotation within the same second gets the
name path.timestamp.1, not the claimed path.timestamp.1.gz, and its
gzip-compressed content lands in a file without the .gz suffix
(code_bug exhibit). -/
theorem c5_collision_loses_gz_suffix :
    c5Writer.compress = true ∧
    backupName { c5Writer with backups := [] } = bytes "a.20250101-120000.0.gz" ∧
    backupName c5Writer = bytes "a.20250101-120000.1" ∧
    backupName c5Writer ≠ bytes "a.20250101-120000.1.gz" := by decide

/-- Claim C4 counterexample: writing an oversized newline-terminated
line against maxSize 5 fails with the size error, writes nothing, but
does not leave the internal line buffer unmodified: the buffer went
from empty to holding the whole rejected line, and a subsequent Sync
retries that very line and fails again — the line is retained, not
discarded. -/
theorem c4_oversized_line_retained_counterexample :
    c4Writer.buf = [] ∧
    write c4Writer c4Chunk = ({ c4Writer with buf := c4Chunk }, 0, some .sizeExceeded) ∧
    syncW { c4Writer with buf := c4Chunk } =
      ({ c4Writer with buf := c4Chunk }, some .sizeExceeded) := by decide

/-- Claim C4 (amended): a non-empty line whose length plus the prefix
exceeds a positive maxSize makes writeLine fail with the size-exceeded
error while performing no action at all: zero bytes reach the file and
the writer state — its buffer included — is exactly as before.  Since
Write had already accumulated the line into the buffer, the line
therefore stays buffered, and flushing such a writer through Sync
retries the same line and fails identically instead of finding it
discarded. -/
theorem c4_oversized_line_rejected (w : Writer) (line : List Nat)
    (hpos : 0 < w.maxSize)
    (hbig : w.maxSize < ((line.length + w.pfx.length : Nat) : Int))
    (hne : line ≠ []) :
    writeLine w line = (w, some .sizeExceeded) ∧
    (w.buf = line → syncW w = (w, some .sizeExceeded)) := by
  have hcond : (decide (((line.length + w.pfx.length : Nat) : Int) > w.maxSize) &&
      decide (w.maxSize > 0)) = true := by
    simp only [Bool.and_eq_true, decide_eq_true_eq]
    exact ⟨hbig, hpos⟩
  have h1 : writeLine w line = (w, some .sizeExceeded) := by
    unfold writeLine
    rw [if_neg hne, if_pos hcond]
  refine ⟨h1, fun hbuf => ?_⟩
  have hbne : w.buf ≠ [] := by rw [hbuf]; exact hne
  unfold syncW
  rw [if_pos hbne, hbuf]
  exact h1

/-- Claim C4 witness: the amended statement evaluated at the writer
whose buffer already holds the oversized line. -/
theorem c4_oversized_line_rejected_witness :
    writeLine c4WitWriter c4Chunk = (c4WitWriter, some .sizeExceeded) ∧
    (c4WitWriter.buf = c4Chunk →
      syncW c4WitWriter = (c4WitWriter, some .sizeExceeded)) :=
  c4_oversized_line_rejected c4WitWriter c4Chunk (by decide) (by decide) (by decide)

/-- Claim C6: if any rotation step before truncation fails — creating
the backup file, opening the live file for reading, copying its
contents, or syncing — rotate aborts with an error, the live file's
contents are unchanged (never truncated), and retention cleanup is not
invoked: every backup name present before the call is still present
after it. -/
theorem c6_rotate_aborts_before_truncate (w : Writer)
    (h : (w.faults.createErr || w.faults.openErr || w.faults.copyErr ||
      w.faults.syncErr) = true) :
    (rotate w).2 ≠ none ∧
    (rotate w).1.live = w.live ∧
    w.backups.map Prod.fst ⊆ (rotate w).1.backups.map Prod.fst := by
  unfold rotate
  by_cases hc : w.faults.createErr = true
  · rw [if_pos hc]
    exact ⟨by simp, rfl, fun x hx => hx⟩
  · rw [Bool.not_eq_true] at hc
    rw [if_neg (by rw [hc]; exact Bool.false_ne_true)]
    by_cases ho : w.faults.openErr = true
    · rw [if_pos ho]
      refine ⟨by simp, rfl, fun x hx => ?_⟩
      simpa using Or.inr (by simpa using hx)
    · rw [Bool.not_eq_true] at ho
      rw [if_neg (by rw [ho]; exact Bool.false_ne_true)]
      by_cases hcp : w.faults.copyErr = true
      · rw [if_pos hcp]
        refine ⟨by simp, rfl, fun x hx => ?_⟩
        simpa using Or.inr (by simpa using hx)
      · rw [Bool.not_eq_true] at hcp
        rw [if_neg (by rw [hcp]; exact Bool.false_ne_true)]
        have hs : w.faults.syncErr = true := by
          rw [hc, ho, hcp] at h
          simpa using h
        rw [if_pos hs]
        refine ⟨by simp, rfl, fun x hx => ?_⟩
        rw [map_fst_overwrite]
        simpa using Or.inr (by simpa using hx)

/-- Claim C6 witness: the rotation of c6Writer fails at the copy step;
its live contents and its one existing backup survive untouched. -/
theorem c6_rotate_aborts_before_truncate_witness :
    (rotate c6Writer).2 ≠ none ∧
    (rotate c6Writer).1.live = c6Writer.live ∧
    c6Writer.backups.map Prod.fst ⊆ (rotate c6Writer).1.backups.map Prod.fst :=
  c6_rotate_aborts_before_truncate c6Writer (by decide)

/-- Claim C7: whenever Write fails it reports zero bytes consumed
together with the error, for every state and chunk (first conjunct);
and complete lines that precede the failing one in the same chunk have
already been flushed to the file independently and in order, as the
concrete run in the second conjunct exhibits: the chunk carries lines
"a", "b" and an oversized third line, the file ends up holding exactly
"a" then "b", and the call reports zero bytes with the size error. -/
theorem c7_write_abort_zero_bytes :
    (∀ (w : Writer) (b : List Nat),
      (write w b).2.2 ≠ none → (write w b).2.1 = 0) ∧
    write c7Writer c7Chunk =
      ({ c7Writer with live := bytes "a\nb\n", buf := bytes "xxxxxxxxxx\n" },
        0, some .sizeExceeded) := by
  constructor
  · intro w b h
    unfold write at h ⊢
    cases hl : writeLoop w b with
    | mk w' e =>
      cases e
      · rw [hl] at h
        simp at h
      · rfl
  · decide

/-- Claim C7 witness: the general zero-on-error conjunct applied to the
concrete failing run. -/
theorem c7_write_abort_zero_bytes_witness :
    (write c7Writer c7Chunk).2.2 ≠ none ∧ (write c7Writer c7Chunk).2.1 = 0 :=
  ⟨by decide, c7_write_abort_zero_bytes.1 c7Writer c7Chunk (by decide)⟩

/-- Running Write's byte loop over a concatenation first runs it over
the left part; if that part completes without error the loop simply
continues from the reached state. -/
theorem writeLoop_append {b : List Nat} : ∀ {a : List Nat} {w w' : Writer},
    writeLoop w a = (w', none) → writeLoop w (a ++ b) = writeLoop w' b
  | [], w, w', h => by
    have hw : w = w' := congrArg Prod.fst h
    rw [List.nil_append, hw]
  | c :: rest, w, w', h => by
    simp only [writeLoop, List.cons_append] at h ⊢
    by_cases hc : c = 10
    · rw [if_pos hc] at h ⊢
      cases hwl : writeLine { w with buf := w.buf ++ [c] } (w.buf ++ [c]) with
      | mk w2 e =>
        rw [hwl] at h
        cases e
        · exact writeLoop_append h
        · exact absurd (congrArg Prod.snd h) (by simp)
    · rw [if_neg hc] at h ⊢
      exact writeLoop_append h

/-- Claim C8: chunk-boundary independence.  If a sequence of Write
calls all succeed, then a single Write of the concatenated byte stream
succeeds as well, reports the full length, and leaves the writer (its
buffer, live file and backups) in exactly the same state. -/
theorem c8_chunking_independent (w : Writer) (cs : List (List Nat))
    (h : (writeAll w cs).2 = none) :
    write w cs.flatten = ((writeAll w cs).1, cs.flatten.length, none) := by
  induction cs generalizing w with
  | nil => rfl
  | cons c cs ih =>
    unfold writeAll at h ⊢
    cases hw : write w c with
    | mk w1 p =>
      obtain ⟨n1, e1⟩ := p
      rw [hw] at h
      cases e1
      · have h' : (writeAll w1 cs).2 = none := h
        have hjoin := ih w1 h'
        have hl : writeLoop w c = (w1, none) := by
          unfold write at hw
          cases hl' : writeLoop w c with
          | mk wl el =>
            rw [hl'] at hw
            cases el
            · have h1 : wl = w1 := congrArg Prod.fst hw
              rw [h1]
            · exact absurd (congrArg (fun q => q.2.2) hw) (by simp)
        have hl2 : writeLoop w1 cs.flatten = ((writeAll w1 cs).1, none) := by
          unfold write at hjoin
          cases hj : writeLoop w1 cs.flatten with
          | mk wj ej =>
            rw [hj] at hjoin
            cases ej
            · have h1 : wj = (writeAll w1 cs).1 := congrArg (fun q => q.1) hjoin
              rw [h1]
            · exact absurd (congrArg (fun q => q.2.2) hjoin) (by simp)
        show write w (c ++ cs.flatten) =
          ((writeAll w1 cs).1, (c ++ cs.flatten).length, none)
        unfold write
        rw [writeLoop_append hl, hl2]
      · exact absurd h (by simp)

/-- Claim C8 witness: feeding "abc\ndef\n" in three uneven chunks or in
one call produces identical final states. -/
theorem c8_chunking_independent_witness :
    (writeAll c8Writer c8Chunks).2 = none ∧
    write c8Writer c8Chunks.flatten =
      ((writeAll c8Writer c8Chunks).1, c8Chunks.flatten.length, none) :=
  ⟨by decide, c8_chunking_independent c8Writer c8Chunks (by decide)⟩

/-- Claim C9: after any successful writeLine of a non-empty line the
writer's internal line buffer is empty (first conjunct), and an empty
line is a no-op: writeLine succeeds and returns the state entirely
unchanged (second conjunct). -/
theorem c9_buffer_empty_after_success :
    (∀ (w : Writer) (line : List Nat) (w' : Writer),
      line ≠ [] → writeLine w line = (w', none) → w'.buf = []) ∧
    (∀ w : Writer, writeLine w [] = (w, none)) := by
  refine ⟨fun w line w' hne h => ?_, fun w => by simp [writeLine]⟩
  unfold writeLine at h
  rw [if_neg hne] at h
  by_cases hsz : (decide (((line.length + w.pfx.length : Nat) : Int) > w.maxSize) &&
      decide (w.maxSize > 0)) = true
  · rw [if_pos hsz] at h
    exact absurd (congrArg Prod.snd h) (by simp)
  · rw [if_neg hsz] at h
    have h2 : (deferSync w (line.length + w.pfx.length)
        (match (if shouldRotate w (line.length + w.pfx.length) then rotate w
                else (w, none)) with
          | (w1, some e) => (w1, some e)
          | (w1, none) =>
            if w1.faults.writeErr = true then (w1, some .writeFailed)
            else ({ w1 with live := w1.live ++ w1.pfx ++ line, buf := [] }, none))).2
        = none := by rw [h]
    have hds := deferSync_none h2
    rw [hds] at h
    split at h
    · exact absurd (congrArg Prod.snd h) (by simp)
    · split at h
      · exact absurd (congrArg Prod.snd h) (by simp)
      · injection h with h1 h2
        rw [← h1]

/-- Claim C9 witness: a successful two-byte line write leaves the
buffer empty. -/
theorem c9_buffer_empty_after_success_witness :
    bytes "q\n" ≠ [] ∧
    ({ c9Writer with live := bytes "q\n", buf := [] } : Writer).buf = [] :=
  ⟨by decide,
    c9_buffer_empty_after_success.1 c9Writer (bytes "q\n")
      { c9Writer with live := bytes "q\n", buf := [] } (by decide) (by decide)⟩

/-- Claim C10: Write is all-or-nothing in its reported byte count: for
every state and chunk it returns either the full chunk length with no
error — even when bytes merely joined the in-memory buffer — or zero
together with a non-nil error. -/
theorem c10_write_count_all_or_nothing (w : Writer) (b : List Nat) :
    (write w b).2 = (b.length, none) ∨
    ((write w b).2.1 = 0 ∧ (write w b).2.2 ≠ none) := by
  unfold write
  cases hl : writeLoop w b with
  | mk w' e => cases e <;> simp

end DFW
